import Mathlib

/-!
# Verification of the go-gori node-storage layer specification

A shallow embedding, in Lean 4, of the parts of the `gorievm/go-gori`
repository that the specification's claims are about:

* the trie `Database` facade with its two backends (hash scheme and
  path scheme), whose core implementation is not included in the
  sampled sources — those definitions are modelled from the spec, as
  their doc comments state, while `newTestDatabase` follows
  `src/trie/database_test.go`;
* the mock transaction pool of the `eth` test harness
  (`src/unnamed/part_000`);
* the discovery `Config.withDefaults` function
  (`src/p2p/discover/common.go`);
* the generated protobuf getters of the Trezor message types
  (`src/accounts/usbwallet/trezor/messages-ethereum.pb.go`).

Machine integers carry no arithmetic here, so they are modelled as
`Nat`/`Int`; Go maps become association lists; Go `nil` pointers and
interfaces become `Option`.
-/

namespace GoGori

/-! ## Association-list primitives (Go maps / key-value stores) -/

/-- Lookup in an association list, first entry with the key wins. -/
def alookup {κ α : Type} [DecidableEq κ] : List (κ × α) → κ → Option α
  | [], _ => none
  | (k, v) :: rest, r => if r = k then some v else alookup rest r

/-- Remove every entry with the given key. -/
def aerase {κ α : Type} [DecidableEq κ] : List (κ × α) → κ → List (κ × α)
  | [], _ => []
  | (k', v) :: rest, k => if k' = k then aerase rest k else (k', v) :: aerase rest k

/-- Insert or overwrite the entry for a key. -/
def aupdate {κ α : Type} [DecidableEq κ] (l : List (κ × α)) (k : κ) (v : α) : List (κ × α) :=
  (k, v) :: aerase l k

/-! ## Data model (spec §3)

Modelled from the spec: the core trie database implementation is not
among the sampled sources (only `src/trie/database_test.go` is), so the
data model follows the spec's §3 word for word.  A `NodeReference` in
path form is an (owner, path) pair; owners are abstract identifiers and
path nibbles are abstract symbols, both modelled as `Nat`; `NodeBytes`
is an opaque byte blob, modelled as `List Nat`. -/

/-- Path-form node reference: (owner, nibble path). -/
abbrev Ref : Type := Nat × List Nat

/-- Opaque encoded node payload. -/
abbrev Bytes : Type := List Nat

/-- The durable key-value store's content, an association list keyed by
reference. -/
abbrev Store : Type := List (Ref × Bytes)

/-- One entry of a diff layer: a reference mapped to new bytes
(`some b`) or a tombstone (`none`). -/
abbrev Change : Type := Ref × Option Bytes

/-- Modelled from the spec: a `DiffLayer` (§3) is the immutable record
of the changes introduced by one committed version, tagged with that
version's identifier.  The parent link is positional: layers form a
list, newest first, so each layer's parent is its successor in the
list. -/
structure DiffLayer where
  version : Nat
  changes : List Change
deriving DecidableEq, Repr

/-- Modelled from the spec: the path-scheme backend's state (§4.3) —
the chain of diff layers (newest first), the disk snapshot with the
version it represents, the staged writes buffered for the next commit,
and the configured retention depth (§4.4, §6). -/
structure PathDB where
  chain : List DiffLayer
  disk : Store
  diskVersion : Nat
  staged : List Change
  depth : Nat
deriving DecidableEq, Repr

/-- Error taxonomy, modelled from the spec (§7). -/
inductive DBErr where
  | notFound
  | corruptState
  | unwindable
  | ioFailure
  | capabilityError
deriving DecidableEq, Repr

/-! ## Path-scheme backend operations (spec §4.3, §4.4) -/

/-- The changes a single layer records for a reference. -/
def layerLookup (L : DiffLayer) (r : Ref) : Option (Option Bytes) :=
  alookup L.changes r

/-- Modelled from the spec: walk the chain from a starting layer toward
the root; the first layer with an entry for the reference wins, a
tombstone short-circuits with NotFound, and a walk that reaches the
disk snapshot queries it directly (§4.3). -/
def walk : List DiffLayer → Ref → Store → Option Bytes
  | [], r, disk => alookup disk r
  | L :: ls, r, disk =>
    match layerLookup L r with
    | some ob => ob
    | none => walk ls r disk

/-- The suffix of the chain starting at the first layer carrying the
given version, if any. -/
def findFrom : List DiffLayer → Nat → Option (List DiffLayer)
  | [], _ => none
  | L :: ls, v => if L.version = v then some (L :: ls) else findFrom ls v

/-- Modelled from the spec: `resolve(owner, path, at_version)` (§4.3).
If the version still has a live layer, walk from it; if the version is
the one the disk snapshot has been flattened to (§8's "served from the
Disk Snapshot"), query the snapshot; otherwise the version is
unavailable and the result is NotFound (§7). -/
def resolve (db : PathDB) (r : Ref) (v : Nat) : Option Bytes :=
  match findFrom db.chain v with
  | some s => walk s r db.disk
  | none => if v = db.diskVersion then alookup db.disk r else none

/-- Modelled from the spec: `stage(ref, bytes)` buffers a write pending
the next commit (§4.5). -/
def stage (db : PathDB) (r : Ref) (b : Bytes) : PathDB :=
  { db with staged := (r, some b) :: db.staged }

/-- Apply one layer entry to the durable store: write bytes, or delete
on tombstone (§4.4). -/
def applyChange (c : Change) (d : Store) : Store :=
  match c.2 with
  | some b => aupdate d c.1 b
  | none => aerase d c.1

/-- Modelled from the spec: merge a layer into the disk snapshot,
applying every (reference → bytes|tombstone) entry (§4.4).  Entries are
applied so that the layer's first-listed entry for a reference wins,
matching `layerLookup`. -/
def applyLayer (L : DiffLayer) (d : Store) : Store :=
  L.changes.foldr applyChange d

/-- Modelled from the spec: flush the oldest layer of the chain into
the disk snapshot and detach it; the snapshot then represents that
layer's version (§4.4). -/
def flushOldest (db : PathDB) : PathDB :=
  match db.chain.getLast? with
  | none => db
  | some L =>
    { db with
      chain := db.chain.dropLast
      disk := applyLayer L db.disk
      diskVersion := L.version }

/-- Flush the oldest layer a fixed number of times. -/
def flushRepeat : Nat → PathDB → PathDB
  | 0, db => db
  | n + 1, db => flushRepeat n (flushOldest db)

/-- Push the staged writes as a new head layer for a version. -/
def pushLayer (db : PathDB) (v : Nat) : PathDB :=
  { db with chain := ⟨v, db.staged⟩ :: db.chain, staged := [] }

/-- Modelled from the spec: `commit(version_id)` appends the staged
writes as a new head layer, then the flush coordinator merges oldest
layers into the disk snapshot while the chain is longer than the
retention depth (§4.4, §4.5). -/
def commit (db : PathDB) (v : Nat) : PathDB :=
  flushRepeat ((pushLayer db v).chain.length - (pushLayer db v).depth) (pushLayer db v)

/-- Modelled from the spec: sequentially apply layer entries to the
durable store, failing with `IOFailure` when the injected fault index
is reached; the running index counts durable-store operations (§5,
§7). -/
def applyChangesFallible : List Change → Store → Nat → Option Nat → Except DBErr (Store × Nat)
  | [], d, k, _ => .ok (d, k)
  | c :: cs, d, k, fa =>
    if fa = some k then .error .ioFailure
    else applyChangesFallible cs (applyChange c d) (k + 1) fa

/-- Modelled from the spec: the durable-store half of a flush, which
can fail midway with an I/O error.  Entries are applied in reverse list
order so a successful run produces exactly `applyLayer`. -/
def flushOldestFallible (db : PathDB) (k : Nat) (fa : Option Nat) :
    Except DBErr (PathDB × Nat) :=
  match db.chain.getLast? with
  | none => .ok (db, k)
  | some L =>
    (applyChangesFallible L.changes.reverse db.disk k fa).map fun p =>
      ({ db with chain := db.chain.dropLast, disk := p.1, diskVersion := L.version }, p.2)

/-- Repeated fallible flushes, propagating the first I/O error. -/
def flushRepeatFallible : Nat → PathDB → Nat → Option Nat → Except DBErr (PathDB × Nat)
  | 0, db, k, _ => .ok (db, k)
  | n + 1, db, k, fa =>
    match flushOldestFallible db k fa with
    | .ok p => flushRepeatFallible n p.1 p.2 fa
    | .error e => .error e

/-- Modelled from the spec: `commit` against a fallible durable store.
A commit that fails midway must leave the chain and cache in their
pre-commit state (§5), so the error branch returns the caller's
pre-commit database unchanged together with the surfaced error. -/
def commitFallible (db : PathDB) (v : Nat) (fa : Option Nat) : PathDB × Option DBErr :=
  match flushRepeatFallible ((pushLayer db v).chain.length - (pushLayer db v).depth)
      (pushLayer db v) 0 fa with
  | .ok p => (p.1, none)
  | .error e => (db, some e)

/-- Modelled from the spec: `rollback(to_version)` discards all layers
newer than the target's layer, or fails with Unwindable when the target
is not in the live chain (§4.3). -/
def rollback (db : PathDB) (v : Nat) : Except DBErr PathDB :=
  match findFrom db.chain v with
  | some s => .ok { db with chain := s }
  | none => .error .unwindable

/-- An empty path database with a given retention depth. -/
def freshPathDB (depth : Nat) : PathDB :=
  { chain := [], disk := [], diskVersion := 0, staged := [], depth := depth }

/-- Internal consistency of a path database: chain versions are
distinct, and the disk snapshot's version is not also a live layer's
(each layer is the causal successor of its parent, so version
identifiers never repeat, §4.3). -/
def wf (db : PathDB) : Prop :=
  (db.chain.map DiffLayer.version).Nodup ∧
    db.diskVersion ∉ db.chain.map DiffLayer.version

instance (db : PathDB) : Decidable (wf db) := by
  unfold wf; infer_instance

/-! ## Concrete states used by witnesses and the counterexample -/

/-- A state reached by genuine commits, used to exhibit the flush
boundary: depth 1, with version 1 already flushed into the disk
snapshot and version 2 still a live layer. -/
def flushDemoDB : PathDB :=
  commit (stage (commit (stage (freshPathDB 1) (0, []) [1]) 1) (0, []) [2]) 2

/-- A concrete two-layer path database used by the flush-transparency
witness. -/
def flushWitnessDB : PathDB :=
  { chain := [⟨2, [((0, [1]), some [5])]⟩, ⟨1, [((0, []), some [7])]⟩],
    disk := [((0, [2]), [9])], diskVersion := 0, staged := [], depth := 2 }

/-- A committed-then-staged concrete state used by the atomicity
witness: version 1 is durably committed, and a write to a second path
is staged for the failing commit. -/
def atomicWitnessDB : PathDB :=
  stage (commit (stage (freshPathDB 0) (0, []) [1]) 1) (0, [2]) [9]

/-- A concrete two-layer chain used by the rollback witness. -/
def rollbackWitnessDB : PathDB :=
  { chain := [⟨2, []⟩, ⟨1, []⟩], disk := [], diskVersion := 0, staged := [], depth := 4 }

/-- The state after rolling `rollbackWitnessDB` back to version 1. -/
def rollbackWitnessDB1 : PathDB :=
  { chain := [⟨1, []⟩], disk := [], diskVersion := 0, staged := [], depth := 4 }

/-! ## Hash-scheme backend (spec §4.2)

Modelled from the spec: the hash-scheme backend's implementation is not
among the sampled sources.  Its state is the reference-counted table of
nodes; `insert` is an idempotent merge that bumps the count, and
`dereference` decrements it, treating underflow as a fatal
corrupt-state error (§4.2, §7). -/

/-- Modelled from the spec: hash-scheme backend state — per-reference
node bytes with their reference count (§4.2). -/
structure HashDB where
  table : List (Ref × (Bytes × Nat))
deriving DecidableEq, Repr

/-- The reference count of a node, zero when absent. -/
def refcount (db : HashDB) (h : Ref) : Nat :=
  match alookup db.table h with
  | some p => p.2
  | none => 0

/-- Modelled from the spec: `insert(hash, bytes)` increments the
reference count if the node is already present (idempotent merge), else
inserts it with count 1 (§4.2). -/
def hashInsert (db : HashDB) (h : Ref) (b : Bytes) : HashDB :=
  match alookup db.table h with
  | some (b0, n) => ⟨aupdate db.table h (b0, n + 1)⟩
  | none => ⟨aupdate db.table h (b, 1)⟩

/-- Modelled from the spec: `dereference(hash)` decrements the
reference count; decrementing a node whose count is already zero (or
which is absent) is a reference-count underflow, a fatal
internal-consistency error surfaced as CorruptState — never silently
clamped (§4.2, §7). -/
def hashDeref (db : HashDB) (h : Ref) : Except DBErr HashDB :=
  match alookup db.table h with
  | some (b0, n + 1) => .ok ⟨aupdate db.table h (b0, n)⟩
  | some (_, 0) => .error .corruptState
  | none => .error .corruptState

/-- The `insert` operation iterated n times. -/
def hashInsertN : HashDB → Ref → Bytes → Nat → HashDB
  | db, _, _, 0 => db
  | db, h, b, n + 1 => hashInsertN (hashInsert db h b) h b n

/-- The `dereference` operation iterated n times, aborting at the first error. -/
def hashDerefN : HashDB → Ref → Nat → Except DBErr HashDB
  | db, _, 0 => .ok db
  | db, h, n + 1 =>
    match hashDeref db h with
    | .ok db' => hashDerefN db' h n
    | .error e => .error e

/-! ## Database facade and backend selection (spec §4.5, §6;
`src/trie/database_test.go`) -/

/-- The two backend flavours of the facade. -/
inductive BackendKind where
  | hash
  | path
deriving DecidableEq, Repr

/-- A backend instance: exactly two variants sharing the facade
contract (spec §9). -/
inductive Backend where
  | hashB (h : HashDB)
  | pathB (p : PathDB)
deriving DecidableEq, Repr

/-- Which scheme a backend instance implements. -/
def Backend.kind : Backend → BackendKind
  | .hashB _ => .hash
  | .pathB _ => .path

/-- The database facade: it owns exactly one backend, chosen at
construction (spec §4.5). -/
structure Database where
  backend : Backend
deriving DecidableEq, Repr

/-- Modelled from the spec: the hash-scheme marker string (the
`rawdb.HashScheme` constant is outside the sampled sources; §6 names
the recognized schemes `hash` and `path`). -/
def HashScheme : String := "hash"

/-- Modelled from the spec: the path-scheme marker string. -/
def PathScheme : String := "path"

/-- From `src/trie/database_test.go` (`newTestDatabase`): the backend
is selected solely from the scheme string — the hash backend when the
scheme equals the hash-scheme marker, the path backend otherwise. -/
def newTestDatabase (scheme : String) : Database :=
  if scheme = HashScheme then ⟨.hashB ⟨[]⟩⟩ else ⟨.pathB (freshPathDB 128)⟩

/-- Modelled from the spec: opening a database reads the store's
reserved scheme-marker key; a marker that disagrees with the requested
scheme is a scheme mismatch, a CorruptState error surfaced at open time
(§6, §7). -/
def openDatabase (stored : Option String) (scheme : String) : Except DBErr Database :=
  match stored with
  | some m => if m = scheme then .ok (newTestDatabase scheme) else .error .corruptState
  | none => .ok (newTestDatabase scheme)

/-- The facade's mutating operations (spec §4.5). -/
inductive FacadeOp where
  | stageOp (r : Ref) (b : Bytes)
  | commitOp (v : Nat)
  | rollbackOp (v : Nat)
deriving DecidableEq, Repr

/-- Modelled from the spec: dispatch a facade operation to the
instance's backend.  Each variant owns its private state; an operation
never replaces the backend itself (§4.5, §9). -/
def applyOp (db : Database) (op : FacadeOp) : Database :=
  match db.backend with
  | .pathB p =>
    match op with
    | .stageOp r b => ⟨.pathB (stage p r b)⟩
    | .commitOp v => ⟨.pathB (commit p v)⟩
    | .rollbackOp v => ⟨.pathB ((rollback p v).toOption.getD p)⟩
  | .hashB hdb =>
    match op with
    | .stageOp r b => ⟨.hashB (hashInsert hdb r b)⟩
    | .commitOp _ => ⟨.hashB hdb⟩
    | .rollbackOp _ => ⟨.hashB hdb⟩

/-! ## Mock transaction pool (`src/unnamed/part_000`) -/

/-- A transaction, identified by its content; `txHash` is its content
hash.  The spec (§3) treats hash collisions as impossible, so the hash
is modelled as the injective identity on the content. -/
structure Transaction where
  payload : List Nat
deriving DecidableEq, Repr

/-- The content hash of a transaction (`tx.Hash()` in the source). -/
def txHash (t : Transaction) : List Nat := t.payload

/-- The `txpool.Transaction` wrapper around a transaction. -/
structure PoolTx where
  tx : Transaction
deriving DecidableEq, Repr

/-- From the source, `testTxPool`: a mock pool holding collected transactions keyed by
hash (the `pool` map of the source). -/
structure TestTxPool where
  pool : List (List Nat × Transaction)
deriving DecidableEq, Repr

/-- From the source, `newTestTxPool`: an empty map. -/
def newTestTxPool : TestTxPool := ⟨[]⟩

/-- From the source, `testTxPool.Has`: whether the pool map holds a
non-nil transaction under the hash. -/
def poolHas (p : TestTxPool) (h : List Nat) : Bool :=
  (alookup p.pool h).isSome

/-- From the source, `testTxPool.Get`: the wrapped transaction under the
hash, or nil. -/
def poolGet (p : TestTxPool) (h : List Nat) : Option PoolTx :=
  (alookup p.pool h).map fun t => ⟨t⟩

/-- From the source, `testTxPool.Add`: unwrap the batch, store every
transaction under its hash, and return `make([]error, len(txs))` — a
slice of nil errors of the batch's length. -/
def poolAdd (p : TestTxPool) (txs : List PoolTx) : TestTxPool × List (Option Unit) :=
  (⟨txs.foldl (fun m w => aupdate m (txHash w.tx) w.tx) p.pool⟩,
    List.replicate txs.length none)

/-! ## Discovery listener configuration (`src/p2p/discover/common.go`)

`Config` holds required and optional settings.  Go durations are
`int64` nanoseconds, modelled as `Int`; nilable pointers, channels and
interfaces (`PrivateKey`, `NetRestrict`, `Unhandled`, `V5ProtocolID`,
`Log`, `ValidSchemes`, `Clock`) are modelled as `Option` over abstract
identities (`Nat` / `List Nat`). -/

/-- The `discover.Config` structure, field for field. -/
structure Config where
  privateKey : Option Nat
  netRestrict : Option Nat
  unhandled : Option Nat
  bootnodes : List Nat
  pingInterval : Int
  refreshInterval : Int
  v5ProtocolID : Option (List Nat)
  log : Option Nat
  validSchemes : Option Nat
  clock : Option Nat
deriving DecidableEq, Repr

/-- Ten seconds (`10 * time.Second`) in nanoseconds. -/
def defaultPingInterval : Int := 10 * 1000000000

/-- Thirty minutes (`30 * time.Minute`) in nanoseconds. -/
def defaultRefreshInterval : Int := 30 * 60 * 1000000000

/-- The `log.Root()` singleton's identity. -/
def logRoot : Nat := 0

/-- The `enode.ValidSchemes` default scheme list's identity. -/
def enodeValidSchemes : Nat := 1

/-- The `mclock.System{}` clock's identity. -/
def mclockSystem : Nat := 2

/-- From the source, `Config.withDefaults`: fill each of the five
optional fields that is zero-valued with its fixed default and return
the copy; every other field is passed through untouched. -/
def withDefaults (cfg : Config) : Config :=
  { cfg with
    pingInterval := if cfg.pingInterval = 0 then defaultPingInterval else cfg.pingInterval
    refreshInterval :=
      if cfg.refreshInterval = 0 then defaultRefreshInterval else cfg.refreshInterval
    log := if cfg.log = none then some logRoot else cfg.log
    validSchemes :=
      if cfg.validSchemes = none then some enodeValidSchemes else cfg.validSchemes
    clock := if cfg.clock = none then some mclockSystem else cfg.clock }

/-- A concrete config used by the `withDefaults` witness: the ping
interval is set, everything else defaultable is zero-valued. -/
def witnessConfig : Config :=
  { privateKey := some 9, netRestrict := none, unhandled := none,
    bootnodes := [4], pingInterval := 7, refreshInterval := 0,
    v5ProtocolID := none, log := none, validSchemes := none, clock := none }

/-! ## Trezor protobuf getters
(`src/accounts/usbwallet/trezor/messages-ethereum.pb.go`)

A Go getter is called on a possibly-nil pointer receiver, modelled as
`Option`; optional scalar fields are pointers, also `Option`.  The
generated getters guard both nils and fall back to the field type's
zero value. -/

/-- The BIP32 public node message referenced by `EthereumPublicKey`. -/
structure HDNodeType where
  nodeDepth : Nat
  fingerprint : Nat
  childNum : Nat
  chainCode : List Nat
  publicKey : List Nat
deriving DecidableEq, Repr

/-- The `EthereumGetPublicKey` message: BIP-32 path (repeated field, a slice) and
optional display flag (pointer field). -/
structure EthereumGetPublicKey where
  addressN : List Nat
  showDisplay : Option Bool
deriving DecidableEq, Repr

/-- The `EthereumPublicKey` message: optional node pointer and optional serialized
form. -/
structure EthereumPublicKey where
  node : Option HDNodeType
  xpub : Option String
deriving DecidableEq, Repr

/-- The getter `EthereumGetPublicKey.GetAddressN`: nil receiver yields the nil
slice. -/
def getAddressN : Option EthereumGetPublicKey → List Nat
  | some x => x.addressN
  | none => []

/-- The getter `EthereumGetPublicKey.GetShowDisplay`: nil receiver or nil field
pointer yields false. -/
def getShowDisplay : Option EthereumGetPublicKey → Bool
  | some x => x.showDisplay.getD false
  | none => false

/-- The getter `EthereumPublicKey.GetNode`: nil receiver yields nil. -/
def getNode : Option EthereumPublicKey → Option HDNodeType
  | some x => x.node
  | none => none

/-- The getter `EthereumPublicKey.GetXpub`: nil receiver or nil field pointer
yields the empty string. -/
def getXpub : Option EthereumPublicKey → String
  | some x => x.xpub.getD ""
  | none => ""

/-! ## Supporting lemmas -/

theorem alookup_aerase {κ α : Type} [DecidableEq κ] (l : List (κ × α)) (k r : κ) :
    alookup (aerase l k) r = if r = k then none else alookup l r := by
  induction l with
  | nil => simp [aerase, alookup]
  | cons p rest ih =>
    obtain ⟨k', v'⟩ := p
    by_cases hk : k' = k
    · subst hk
      by_cases hr : r = k'
      · subst hr
        simpa [aerase, alookup] using ih
      · simp [aerase, alookup, hr, ih]
    · by_cases hr : r = k'
      · subst hr
        simp [aerase, alookup, hk, Ne.symm hk]
      · simp [aerase, alookup, hk, hr, ih]

theorem alookup_aupdate {κ α : Type} [DecidableEq κ] (l : List (κ × α)) (k r : κ) (v : α) :
    alookup (aupdate l k v) r = if r = k then some v else alookup l r := by
  by_cases hr : r = k <;> simp [aupdate, alookup, hr, alookup_aerase]

/-! ## Lemmas about the path-scheme operations -/

theorem alookup_applyChange (c : Change) (d : Store) (r : Ref) :
    alookup (applyChange c d) r = if r = c.1 then c.2 else alookup d r := by
  obtain ⟨k, ob⟩ := c
  cases ob <;> simp [applyChange, alookup_aupdate, alookup_aerase]

theorem alookup_applyLayer (L : DiffLayer) (d : Store) (r : Ref) :
    alookup (applyLayer L d) r =
      match layerLookup L r with
      | some ob => ob
      | none => alookup d r := by
  obtain ⟨v, cs⟩ := L
  simp only [applyLayer, layerLookup]
  induction cs with
  | nil => simp [alookup]
  | cons c rest ih =>
    obtain ⟨k, ob⟩ := c
    by_cases hr : r = k
    · simp [alookup_applyChange, hr, alookup]
    · simp [alookup_applyChange, hr, alookup, ih]

theorem walk_append (s : List DiffLayer) (L : DiffLayer) (r : Ref) (d : Store) :
    walk (s ++ [L]) r d = walk s r (applyLayer L d) := by
  induction s with
  | nil =>
    simp only [List.nil_append, walk, alookup_applyLayer]
  | cons L' s ih =>
    cases h : layerLookup L' r <;> simp [walk, h, ih]

theorem findFrom_append (xs ys : List DiffLayer) (v : Nat) :
    findFrom (xs ++ ys) v =
      match findFrom xs v with
      | some s => some (s ++ ys)
      | none => findFrom ys v := by
  induction xs with
  | nil => simp [findFrom]
  | cons L xs ih => by_cases h : L.version = v <;> simp [findFrom, h, ih]

theorem findFrom_eq_none_iff (xs : List DiffLayer) (v : Nat) :
    findFrom xs v = none ↔ v ∉ xs.map DiffLayer.version := by
  induction xs with
  | nil => simp [findFrom]
  | cons L xs ih =>
    by_cases h : L.version = v
    · simp [findFrom, h]
    · simp only [findFrom, h, if_false, List.map_cons, List.mem_cons]
      rw [ih]
      constructor
      · intro hn hc
        rcases hc with hc | hc
        · exact h hc.symm
        · exact hn hc
      · intro hn hc
        exact hn (Or.inr hc)

theorem findFrom_some {xs : List DiffLayer} {v : Nat} {s : List DiffLayer}
    (h : findFrom xs v = some s) :
    ∃ pre, xs = pre ++ s ∧ (∀ L ∈ pre, L.version ≠ v) ∧
      ∃ L0 tl, s = L0 :: tl ∧ L0.version = v := by
  induction xs generalizing s with
  | nil => simp [findFrom] at h
  | cons L xs ih =>
    by_cases hv : L.version = v
    · simp [findFrom, hv] at h
      exact ⟨[], by simp [h], by simp, L, xs, h.symm, hv⟩
    · simp only [findFrom, hv, if_false] at h
      obtain ⟨pre, hx, hpre, L0, tl, hs, hv0⟩ := ih h
      refine ⟨L :: pre, by simp [hx], ?_, L0, tl, hs, hv0⟩
      intro L' hL'
      rcases List.mem_cons.mp hL' with h1 | h1
      · subst h1; exact hv
      · exact hpre L' h1

theorem flushOldest_chain (db : PathDB) (h : db.chain ≠ []) :
    (flushOldest db).chain = db.chain.dropLast := by
  have hl := List.getLast?_eq_getLast db.chain h
  simp [flushOldest, hl]

theorem flushOldest_wf (db : PathDB) (hwf : wf db) : wf (flushOldest db) := by
  cases h : db.chain.getLast? with
  | none => simpa [flushOldest, h] using hwf
  | some L =>
    have hne : db.chain ≠ [] := by
      intro hnil; rw [hnil] at h; simp at h
    have hL : db.chain.getLast hne = L := by
      have := List.getLast?_eq_getLast db.chain hne
      rw [this] at h; exact Option.some_inj.mp h
    have hdecomp : db.chain.dropLast ++ [L] = db.chain := by
      rw [← hL]; exact List.dropLast_append_getLast hne
    obtain ⟨hnd, hdv⟩ := hwf
    rw [← hdecomp] at hnd
    simp only [List.map_append, List.map_cons, List.map_nil] at hnd
    have hnd' := List.nodup_append.mp hnd
    have hch : (flushOldest db).chain = db.chain.dropLast := by
      simp [flushOldest, h]
    have hdv2 : (flushOldest db).diskVersion = L.version := by
      simp [flushOldest, h]
    rw [wf, hch, hdv2]
    exact ⟨hnd'.1, fun hmem => hnd'.2.2 hmem (List.mem_singleton_self _)⟩

/-- Flushing the oldest layer into the disk snapshot never changes the
result of resolving any reference at any version that has a live layer
in the pre-flush chain (the flushed layer's own version included). -/
theorem flushOldest_resolve (db : PathDB) (v : Nat)
    (hv : v ∈ db.chain.map DiffLayer.version) (r : Ref) :
    resolve (flushOldest db) r v = resolve db r v := by
  have hne : db.chain ≠ [] := by
    intro h; rw [h] at hv; simp at hv
  have hlast := List.getLast?_eq_getLast db.chain hne
  set L := db.chain.getLast hne with hLdef
  have hdecomp : db.chain.dropLast ++ [L] = db.chain :=
    List.dropLast_append_getLast hne
  have hchain' : (flushOldest db).chain = db.chain.dropLast :=
    flushOldest_chain db hne
  have hdisk' : (flushOldest db).disk = applyLayer L db.disk := by
    simp [flushOldest, hlast]
  have hdv' : (flushOldest db).diskVersion = L.version := by
    simp [flushOldest, hlast]
  by_cases hmem : v ∈ db.chain.dropLast.map DiffLayer.version
  · -- the version's layer survives the flush
    cases hf : findFrom db.chain.dropLast v with
    | none => exact absurd ((findFrom_eq_none_iff _ _).mp hf) (by simpa using hmem)
    | some s =>
      have hpre : findFrom db.chain v = some (s ++ [L]) := by
        rw [← hdecomp, findFrom_append, hf]
      simp only [resolve, hchain', hdisk', hf, hpre]
      exact (walk_append s L r db.disk).symm
  · -- the flushed layer itself carries the version
    have hvL : v = L.version := by
      rw [← hdecomp] at hv
      simp only [List.map_append, List.map_cons, List.map_nil,
        List.mem_append, List.mem_cons, List.not_mem_nil, or_false] at hv
      rcases hv with h1 | h1
      · exact absurd h1 hmem
      · exact h1
    have hf : findFrom db.chain.dropLast v = none :=
      (findFrom_eq_none_iff _ _).mpr hmem
    have hpre : findFrom db.chain v = some [L] := by
      rw [← hdecomp, findFrom_append, hf]
      simp [findFrom, hvL]
    simp only [resolve, hchain', hdisk', hdv', hf, hpre]
    rw [if_pos hvL, alookup_applyLayer]
    cases hL2 : layerLookup L r <;> simp [walk, hL2]

theorem flushRepeat_resolve (k : Nat) :
    ∀ (db : PathDB) (L0 : DiffLayer) (tl : List DiffLayer),
      db.chain = L0 :: tl → k ≤ db.chain.length →
      ∀ r, resolve (flushRepeat k db) r L0.version = resolve db r L0.version := by
  induction k with
  | zero => intro db L0 tl _ _ r; rfl
  | succ n ih =>
    intro db L0 tl hchain hk r
    have hv : L0.version ∈ db.chain.map DiffLayer.version := by simp [hchain]
    have hstep := flushOldest_resolve db L0.version hv r
    have hne : db.chain ≠ [] := by rw [hchain]; simp
    cases tl with
    | nil =>
      have hn : n = 0 := by
        rw [hchain] at hk; simpa using Nat.le_of_succ_le_succ hk
      subst hn
      simpa [flushRepeat] using hstep
    | cons L1 tl' =>
      have hchain' : (flushOldest db).chain = L0 :: (L1 :: tl').dropLast := by
        rw [flushOldest_chain db hne, hchain]
        rfl
      have hk' : n ≤ (flushOldest db).chain.length := by
        rw [hchain'] at *
        rw [hchain] at hk
        simp only [List.length_cons, List.length_dropLast] at *
        omega
      have := ih (flushOldest db) L0 ((L1 :: tl').dropLast) hchain' hk' r
      calc resolve (flushRepeat (n + 1) db) r L0.version
          = resolve (flushRepeat n (flushOldest db)) r L0.version := rfl
        _ = resolve (flushOldest db) r L0.version := this
        _ = resolve db r L0.version := hstep

/-! ## The fallible flush agrees with the pure one when no fault fires -/

theorem applyChangesFallible_none (cs : List Change) (d : Store) (k : Nat) :
    applyChangesFallible cs d k none =
      .ok (cs.foldl (fun d c => applyChange c d) d, k + cs.length) := by
  induction cs generalizing d k with
  | nil => simp [applyChangesFallible]
  | cons c cs ih =>
    simp [applyChangesFallible, ih]
    omega

theorem flushOldestFallible_none (db : PathDB) (k : Nat) :
    ∃ k', flushOldestFallible db k none = .ok (flushOldest db, k') := by
  cases h : db.chain.getLast? with
  | none => exact ⟨k, by simp [flushOldestFallible, flushOldest, h]⟩
  | some L =>
    refine ⟨k + L.changes.reverse.length, ?_⟩
    have hfold : L.changes.reverse.foldl (fun d c => applyChange c d) db.disk =
        applyLayer L db.disk := by
      rw [List.foldl_reverse]
      rfl
    simp [flushOldestFallible, h, applyChangesFallible_none, hfold, flushOldest, Except.map]

theorem flushRepeatFallible_none (n : Nat) :
    ∀ (db : PathDB) (k : Nat),
      ∃ k', flushRepeatFallible n db k none = .ok (flushRepeat n db, k') := by
  induction n with
  | zero => exact fun db k => ⟨k, rfl⟩
  | succ m ih =>
    intro db k
    obtain ⟨k1, h1⟩ := flushOldestFallible_none db k
    obtain ⟨k2, h2⟩ := ih (flushOldest db) k1
    exact ⟨k2, by simp [flushRepeatFallible, h1, h2, flushRepeat]⟩

theorem commitFallible_none (db : PathDB) (v : Nat) :
    commitFallible db v none = (commit db v, none) := by
  obtain ⟨k', hk⟩ := flushRepeatFallible_none
    ((pushLayer db v).chain.length - (pushLayer db v).depth) (pushLayer db v) 0
  simp [commitFallible, commit, hk]

/-! ## Hash-scheme lemmas -/

theorem refcount_hashInsert (db : HashDB) (h : Ref) (b : Bytes) :
    refcount (hashInsert db h b) h = refcount db h + 1 := by
  cases hl : alookup db.table h with
  | none => simp [hashInsert, refcount, hl, alookup_aupdate]
  | some p =>
    obtain ⟨b0, n⟩ := p
    simp [hashInsert, refcount, hl, alookup_aupdate]

theorem refcount_hashInsertN (db : HashDB) (h : Ref) (b : Bytes) (n : Nat) :
    refcount (hashInsertN db h b n) h = refcount db h + n := by
  induction n generalizing db with
  | zero => rfl
  | succ m ih =>
    rw [hashInsertN, ih, refcount_hashInsert]
    omega

theorem hashDeref_pos (db : HashDB) (h : Ref) (n : Nat)
    (hc : refcount db h = n + 1) :
    ∃ db', hashDeref db h = .ok db' ∧ refcount db' h = n := by
  cases hl : alookup db.table h with
  | none => rw [refcount, hl] at hc; simp at hc
  | some p =>
    obtain ⟨b0, m⟩ := p
    rw [refcount, hl] at hc
    simp at hc
    subst hc
    exact ⟨⟨aupdate db.table h (b0, n)⟩, by rw [hashDeref, hl],
      by simp [refcount, alookup_aupdate]⟩

theorem hashDeref_zero (db : HashDB) (h : Ref) (hc : refcount db h = 0) :
    hashDeref db h = .error .corruptState := by
  cases hl : alookup db.table h with
  | none => rw [hashDeref, hl]
  | some p =>
    obtain ⟨b0, m⟩ := p
    rw [refcount, hl] at hc
    simp at hc
    subst hc
    rw [hashDeref, hl]

theorem hashDerefN_underflow (n : Nat) :
    ∀ (db : HashDB) (h : Ref), refcount db h = n →
      hashDerefN db h (n + 1) = .error .corruptState := by
  induction n with
  | zero =>
    intro db h hc
    rw [hashDerefN, hashDeref_zero db h hc]
  | succ m ih =>
    intro db h hc
    obtain ⟨db', hok, hc'⟩ := hashDeref_pos db h m hc
    rw [hashDerefN, hok]
    exact ih db' h hc'

/-! ## Transaction-pool lemmas -/

theorem alookup_foldl_aupdate_keep (txs : List PoolTx)
    (m : List (List Nat × Transaction)) (k : List Nat)
    (h : alookup m k = some ⟨k⟩) :
    alookup (txs.foldl (fun m w => aupdate m (txHash w.tx) w.tx) m) k = some ⟨k⟩ := by
  induction txs generalizing m with
  | nil => exact h
  | cons w txs ih =>
    apply ih
    by_cases hk : k = txHash w.tx
    · rw [alookup_aupdate, if_pos hk]
      subst hk
      rfl
    · rw [alookup_aupdate, if_neg hk]
      exact h

theorem alookup_foldl_aupdate_mem (txs : List PoolTx)
    (m : List (List Nat × Transaction)) (w : PoolTx) (hw : w ∈ txs) :
    alookup (txs.foldl (fun m w => aupdate m (txHash w.tx) w.tx) m) (txHash w.tx) =
      some w.tx := by
  induction txs generalizing m with
  | nil => cases hw
  | cons x txs ih =>
    rcases List.mem_cons.mp hw with h1 | h1
    · subst h1
      show alookup (txs.foldl (fun m w => aupdate m (txHash w.tx) w.tx)
        (aupdate m (txHash w.tx) w.tx)) (txHash w.tx) = some w.tx
      have hbase : alookup (aupdate m (txHash w.tx) w.tx) (txHash w.tx) =
          some (⟨txHash w.tx⟩ : Transaction) := by
        rw [alookup_aupdate, if_pos rfl]
        rfl
      exact alookup_foldl_aupdate_keep txs _ _ hbase
    · exact ih _ h1

/-! ## Claim theorems and witnesses -/

/-- C2: Round-trip through the Database facade — for every reference
R, byte payload B and version v, executing `stage(R, B)` followed by
`commit(v)` makes a subsequent `resolve(R, v)` return exactly B.  This
holds for every starting state, staged buffer and retention depth, even
when the commit immediately flushes the new layer to disk. -/
theorem stage_commit_roundtrip (db : PathDB) (R : Ref) (B : Bytes) (v : Nat) :
    resolve (commit (stage db R B) v) R v = some B := by
  have hchain : (pushLayer (stage db R B) v).chain =
      ⟨v, (R, some B) :: db.staged⟩ :: db.chain := by
    simp [pushLayer, stage]
  have hrep := flushRepeat_resolve
    ((pushLayer (stage db R B) v).chain.length - (pushLayer (stage db R B) v).depth)
    (pushLayer (stage db R B) v) ⟨v, (R, some B) :: db.staged⟩ db.chain
    hchain (Nat.sub_le _ _) R
  refine hrep.trans ?_
  simp [resolve, hchain, findFrom, walk, layerLookup, alookup]

/-- C3: Latest-wins ordering in the path-scheme backend — after
committing layer v1 writing b1 at P and then layer v2 writing b2 at the
same P (both layers still live), resolving P at v2 yields b2 and
resolving P at v1 yields b1; and in general, the layer closest to the
walk's starting point wins for a reference it modifies. -/
theorem latest_wins (db : PathDB) (P : Ref) (b1 b2 : Bytes) (v1 v2 : Nat)
    (hb : b1 ≠ b2) (hv : v1 ≠ v2) (hd : db.chain.length + 2 ≤ db.depth) :
    resolve (commit (stage (commit (stage db P b1) v1) P b2) v2) P v2 = some b2 ∧
    resolve (commit (stage (commit (stage db P b1) v1) P b2) v2) P v1 = some b1 ∧
    ∀ (L : DiffLayer) (ls : List DiffLayer) (r : Ref) (d : Store) (ob : Option Bytes),
      layerLookup L r = some ob → walk (L :: ls) r d = ob := by
  have h1 : commit (stage db P b1) v1 = pushLayer (stage db P b1) v1 := by
    have hz : (pushLayer (stage db P b1) v1).chain.length -
        (pushLayer (stage db P b1) v1).depth = 0 := by
      simp [pushLayer, stage]
      omega
    rw [commit, hz]
    rfl
  have hchain1 : (pushLayer (stage db P b1) v1).chain =
      ⟨v1, (P, some b1) :: db.staged⟩ :: db.chain := by
    simp [pushLayer, stage]
  set db2p := pushLayer (stage (commit (stage db P b1) v1) P b2) v2 with hdb2p
  have hdb2full : db2p =
      { chain := ⟨v2, [(P, some b2)]⟩ :: ⟨v1, (P, some b1) :: db.staged⟩ :: db.chain,
        disk := db.disk, diskVersion := db.diskVersion, staged := [],
        depth := db.depth } := by
    rw [hdb2p, h1]
    rfl
  have h2 : commit (stage (commit (stage db P b1) v1) P b2) v2 = db2p := by
    have hz : db2p.chain.length - db2p.depth = 0 := by
      rw [hdb2full]
      simp
      omega
    rw [commit, ← hdb2p, hz]
    rfl
  refine ⟨?_, ?_, ?_⟩
  · rw [h2, hdb2full]
    simp [resolve, findFrom, walk, layerLookup, alookup]
  · rw [h2, hdb2full]
    have hne : v2 ≠ v1 := fun h => hv h.symm
    simp [resolve, findFrom, hne, walk, layerLookup, alookup]
  · intro L ls r d ob hL
    simp [walk, hL]

/-- C4: Atomicity of commit/flush under I/O failure — whenever a
commit's durable-store work fails midway with an I/O error, the
resulting state is exactly the pre-commit state, so `resolve` behaves
identically to the pre-commit state for every reference and version:
no partially-applied layer is observable. -/
theorem commit_atomic_under_io_failure (db : PathDB) (v : Nat) (fa : Option Nat)
    (e : DBErr) (h : (commitFallible db v fa).2 = some e) :
    (commitFallible db v fa).1 = db ∧
      ∀ (r : Ref) (ver : Nat), resolve (commitFallible db v fa).1 r ver = resolve db r ver := by
  cases hm : flushRepeatFallible ((pushLayer db v).chain.length - (pushLayer db v).depth)
      (pushLayer db v) 0 fa with
  | ok p =>
    rw [commitFallible, hm] at h
    simp at h
  | error e' =>
    have : (commitFallible db v fa).1 = db := by rw [commitFallible, hm]
    exact ⟨this, fun r ver => by rw [this]⟩

/-- C6: Rollback semantics — `rollback(v)` fails with Unwindable when v
has no layer in the current chain; on success it discards exactly the
layers newer than v's layer (the remaining chain is a suffix headed by
v's layer, and every discarded layer has a different version); and an
immediately repeated `rollback(v)` no-ops, returning the same state. -/
theorem rollback_discard_and_idempotent (db : PathDB) (v : Nat) :
    (findFrom db.chain v = none → rollback db v = .error .unwindable) ∧
    (∀ db', rollback db v = .ok db' →
      (∃ pre, db.chain = pre ++ db'.chain ∧ (∀ L ∈ pre, L.version ≠ v) ∧
        ∃ L0 tl, db'.chain = L0 :: tl ∧ L0.version = v) ∧
      rollback db' v = .ok db') := by
  constructor
  · intro h
    simp [rollback, h]
  · intro db' h
    cases hf : findFrom db.chain v with
    | none => simp [rollback, hf] at h
    | some s =>
      rw [rollback, hf] at h
      have hdb' : db' = { db with chain := s } := by
        cases h
        rfl
      obtain ⟨pre, hx, hpre, L0, tl, hs, hv0⟩ := findFrom_some hf
      have hchain' : db'.chain = s := by rw [hdb']
      constructor
      · exact ⟨pre, by rw [hchain']; exact hx, hpre, L0, tl, by rw [hchain', hs], hv0⟩
      · have hff : findFrom db'.chain v = some db'.chain := by
          rw [hchain', hs]
          simp [findFrom, hv0]
        rw [rollback, hff]

/-- C7 (counterexample): the claim that flushing never changes *any*
resolve result at *any* committed version is false — committing version
3 on `flushDemoDB` pushes the version-2 layer across the flush
boundary, after which the previously committed version 1 (the old disk
snapshot base) resolves to NotFound instead of its bytes. -/
theorem flush_transparency_counterexample :
    resolve (commit flushDemoDB 3) (0, []) 1 ≠ resolve flushDemoDB (0, []) 1 := by
  decide

/-- C7 (amended): flushing the oldest layer into the disk snapshot
leaves the resolve result unchanged for every reference, at every
version that still has a layer in the pre-flush chain — including the
version of the very layer being flushed, which is afterwards served
from the disk snapshot.  Only versions older than the new snapshot base
(no longer in the chain) become unresolvable. -/
theorem flush_transparency (db : PathDB) (v : Nat)
    (hv : v ∈ db.chain.map DiffLayer.version) (r : Ref) :
    resolve (flushOldest db) r v = resolve db r v :=
  flushOldest_resolve db v hv r

/-- Closed witness for the amended flush-transparency theorem: on a
concrete two-layer chain, flushing the oldest layer (version 1) leaves
the flushed version's resolve result unchanged. -/
theorem flush_transparency_witness :
    (1 ∈ flushWitnessDB.chain.map DiffLayer.version) ∧
      resolve (flushOldest flushWitnessDB) (0, []) 1 = resolve flushWitnessDB (0, []) 1 :=
  ⟨by decide, flush_transparency flushWitnessDB 1 (by decide) (0, [])⟩

/-- Closed witness for the latest-wins theorem at a concrete state:
two successive commits to the same path on a fresh depth-4 store. -/
theorem latest_wins_witness :
    ([3] : Bytes) ≠ [4] ∧ (1 : Nat) ≠ 2 ∧
      (freshPathDB 4).chain.length + 2 ≤ (freshPathDB 4).depth ∧
    resolve (commit (stage (commit (stage (freshPathDB 4) (0, [7]) [3]) 1) (0, [7]) [4]) 2)
        (0, [7]) 2 = some [4] ∧
    resolve (commit (stage (commit (stage (freshPathDB 4) (0, [7]) [3]) 1) (0, [7]) [4]) 2)
        (0, [7]) 1 = some [3] := by
  have h := latest_wins (freshPathDB 4) (0, [7]) [3] [4] 1 2
    (by decide) (by decide) (by decide)
  exact ⟨by decide, by decide, by decide, h.1, h.2.1⟩

/-- Closed witness for commit atomicity: a fault injected at the first
durable write makes the commit fail with IOFailure and hand back
exactly the pre-commit state. -/
theorem commit_atomic_witness :
    (commitFallible atomicWitnessDB 2 (some 0)).2 = some DBErr.ioFailure ∧
      (commitFallible atomicWitnessDB 2 (some 0)).1 = atomicWitnessDB :=
  ⟨by decide,
    (commit_atomic_under_io_failure atomicWitnessDB 2 (some 0) DBErr.ioFailure
      (by decide)).1⟩

/-- Closed witness for the rollback theorem: on a concrete two-layer
chain, rolling back to version 1 discards the newer layer, a second
rollback to version 1 returns the same state, and rolling back to an
absent version fails with Unwindable. -/
theorem rollback_witness :
    rollback rollbackWitnessDB 1 = .ok rollbackWitnessDB1 ∧
      rollback rollbackWitnessDB1 1 = .ok rollbackWitnessDB1 ∧
      rollback rollbackWitnessDB 7 = .error .unwindable :=
  ⟨rfl,
    ((rollback_discard_and_idempotent rollbackWitnessDB 1).2 rollbackWitnessDB1
      rfl).2,
    (rollback_discard_and_idempotent rollbackWitnessDB 7).1 (by decide)⟩

/-- C5: Hash-scheme reference-count underflow — starting from any state
where a hash-form reference has count zero, inserting it n times and
then dereferencing n+1 times (one more than inserted) aborts with the
distinguishable CorruptState error: the count is never silently clamped
to zero and the failure is surfaced to the caller, not swallowed. -/
theorem refcount_underflow_corrupt_state (db : HashDB) (h : Ref) (b : Bytes)
    (n : Nat) (h0 : refcount db h = 0) :
    hashDerefN (hashInsertN db h b n) h (n + 1) = .error .corruptState := by
  apply hashDerefN_underflow
  rw [refcount_hashInsertN, h0]
  omega

/-- Closed witness for the underflow theorem: an empty hash store, two
inserts, three dereferences. -/
theorem refcount_underflow_witness :
    refcount ⟨[]⟩ (0, [1]) = 0 ∧
      hashDerefN (hashInsertN ⟨[]⟩ (0, [1]) [5] 2) (0, [1]) 3 = .error .corruptState :=
  ⟨by decide, refcount_underflow_corrupt_state ⟨[]⟩ (0, [1]) [5] 2 (by decide)⟩

/-- C1: Backend selection — the backend is chosen solely from the
scheme marker (hash backend iff the scheme equals the hash-scheme
marker, path backend otherwise, as in `newTestDatabase`), a stored
marker that disagrees with the requested scheme fails fast at open time
with a scheme-mismatch CorruptState error, and no facade operation ever
changes the installed backend's kind for the life of the instance. -/
theorem backend_selection_fixed :
    (∀ scheme : String,
      (scheme = HashScheme → (newTestDatabase scheme).backend.kind = .hash) ∧
      (scheme ≠ HashScheme → (newTestDatabase scheme).backend.kind = .path)) ∧
    (∀ m scheme : String, m ≠ scheme →
      openDatabase (some m) scheme = .error .corruptState) ∧
    (∀ (db : Database) (op : FacadeOp),
      (applyOp db op).backend.kind = db.backend.kind) := by
  refine ⟨fun scheme => ⟨?_, ?_⟩, ?_, ?_⟩
  · intro h
    simp [newTestDatabase, h, Backend.kind]
  · intro h
    simp [newTestDatabase, h, Backend.kind]
  · intro m scheme h
    simp [openDatabase, h]
  · intro db op
    obtain ⟨bk⟩ := db
    cases bk <;> cases op <;> rfl

/-- Closed witness for backend selection: the hash marker installs the
hash backend, the path marker the path backend, mismatched open fails,
and a commit leaves the backend kind unchanged. -/
theorem backend_selection_witness :
    (newTestDatabase HashScheme).backend.kind = .hash ∧
      (newTestDatabase PathScheme).backend.kind = .path ∧
      openDatabase (some HashScheme) PathScheme = .error .corruptState ∧
      (applyOp (newTestDatabase PathScheme) (.commitOp 5)).backend.kind =
        (newTestDatabase PathScheme).backend.kind :=
  ⟨(backend_selection_fixed.1 HashScheme).1 rfl,
    (backend_selection_fixed.1 PathScheme).2 (by decide),
    backend_selection_fixed.2.1 HashScheme PathScheme (by decide),
    backend_selection_fixed.2.2 (newTestDatabase PathScheme) (.commitOp 5)⟩

/-- C8: Mock transaction-pool round-trip — for every pool state and
batch, `Add` accepts every transaction unconditionally, returning a
slice of nil errors of the batch's length, and afterwards `Has` of any
batch member's hash is true while `Get` returns a non-nil wrapper
holding that transaction. -/
theorem testTxPool_add_roundtrip (p : TestTxPool) (txs : List PoolTx) :
    ((poolAdd p txs).2.length = txs.length ∧ ∀ e ∈ (poolAdd p txs).2, e = none) ∧
    ∀ w ∈ txs, poolHas (poolAdd p txs).1 (txHash w.tx) = true ∧
      poolGet (poolAdd p txs).1 (txHash w.tx) = some ⟨w.tx⟩ := by
  refine ⟨⟨by simp [poolAdd], ?_⟩, ?_⟩
  · intro e he
    simp only [poolAdd] at he
    exact List.eq_of_mem_replicate he
  · intro w hw
    have h := alookup_foldl_aupdate_mem txs p.pool w hw
    constructor
    · simp [poolHas, poolAdd, h]
    · simp [poolGet, poolAdd, h]

/-- Closed witness for the pool round-trip: a two-element batch added
to the empty pool. -/
theorem testTxPool_add_witness :
    (⟨⟨[3]⟩⟩ : PoolTx) ∈ ([⟨⟨[1, 2]⟩⟩, ⟨⟨[3]⟩⟩] : List PoolTx) ∧
      poolHas (poolAdd newTestTxPool [⟨⟨[1, 2]⟩⟩, ⟨⟨[3]⟩⟩]).1 (txHash ⟨[3]⟩) = true ∧
      poolGet (poolAdd newTestTxPool [⟨⟨[1, 2]⟩⟩, ⟨⟨[3]⟩⟩]).1 (txHash ⟨[3]⟩) =
        some ⟨⟨[3]⟩⟩ :=
  ⟨by decide,
    ((testTxPool_add_roundtrip newTestTxPool [⟨⟨[1, 2]⟩⟩, ⟨⟨[3]⟩⟩]).2 ⟨⟨[3]⟩⟩
      (by decide)).1,
    ((testTxPool_add_roundtrip newTestTxPool [⟨⟨[1, 2]⟩⟩, ⟨⟨[3]⟩⟩]).2 ⟨⟨[3]⟩⟩
      (by decide)).2⟩

/-- C9: `withDefaults` leaves every already-set field among the five
defaultable ones unchanged, sets exactly the zero-valued ones to their
fixed defaults, passes every other field through untouched, and is
idempotent. -/
theorem withDefaults_spec (cfg : Config) :
    ((cfg.pingInterval ≠ 0 → (withDefaults cfg).pingInterval = cfg.pingInterval) ∧
      (cfg.pingInterval = 0 → (withDefaults cfg).pingInterval = defaultPingInterval)) ∧
    ((cfg.refreshInterval ≠ 0 →
        (withDefaults cfg).refreshInterval = cfg.refreshInterval) ∧
      (cfg.refreshInterval = 0 →
        (withDefaults cfg).refreshInterval = defaultRefreshInterval)) ∧
    ((cfg.log ≠ none → (withDefaults cfg).log = cfg.log) ∧
      (cfg.log = none → (withDefaults cfg).log = some logRoot)) ∧
    ((cfg.validSchemes ≠ none → (withDefaults cfg).validSchemes = cfg.validSchemes) ∧
      (cfg.validSchemes = none →
        (withDefaults cfg).validSchemes = some enodeValidSchemes)) ∧
    ((cfg.clock ≠ none → (withDefaults cfg).clock = cfg.clock) ∧
      (cfg.clock = none → (withDefaults cfg).clock = some mclockSystem)) ∧
    ((withDefaults cfg).privateKey = cfg.privateKey ∧
      (withDefaults cfg).netRestrict = cfg.netRestrict ∧
      (withDefaults cfg).unhandled = cfg.unhandled ∧
      (withDefaults cfg).bootnodes = cfg.bootnodes ∧
      (withDefaults cfg).v5ProtocolID = cfg.v5ProtocolID) ∧
    withDefaults (withDefaults cfg) = withDefaults cfg := by
  refine ⟨⟨?_, ?_⟩, ⟨?_, ?_⟩, ⟨?_, ?_⟩, ⟨?_, ?_⟩, ⟨?_, ?_⟩, ⟨?_, ?_, ?_, ?_, ?_⟩, ?_⟩ <;>
    first
      | (intro h; simp [withDefaults, h])
      | simp [withDefaults]
      | skip
  by_cases h1 : cfg.pingInterval = 0 <;>
    by_cases h2 : cfg.refreshInterval = 0 <;>
    by_cases h3 : cfg.log = none <;>
    by_cases h4 : cfg.validSchemes = none <;>
    by_cases h5 : cfg.clock = none <;>
    simp [withDefaults, h1, h2, h3, h4, h5,
      defaultPingInterval, defaultRefreshInterval]

/-- Closed witness for `withDefaults`: the set ping interval survives
default filling unchanged. -/
theorem withDefaults_witness :
    witnessConfig.pingInterval ≠ 0 ∧
      (withDefaults witnessConfig).pingInterval = witnessConfig.pingInterval :=
  ⟨by decide, (withDefaults_spec witnessConfig).1.1 (by decide)⟩

/-- C10: Generated protobuf getters are nil-safe — on a nil receiver,
or when the optional field pointer is nil, each getter is total and
returns the field type's zero value (nil slice, false, nil pointer,
empty string); on a populated receiver it returns the field. -/
theorem trezor_getters_nil_safe :
    (getAddressN none = [] ∧ getShowDisplay none = false ∧
      getNode none = none ∧ getXpub none = "") ∧
    (∀ x : EthereumGetPublicKey, getAddressN (some x) = x.addressN) ∧
    (∀ x : EthereumGetPublicKey, x.showDisplay = none →
      getShowDisplay (some x) = false) ∧
    (∀ (x : EthereumGetPublicKey) (b : Bool), x.showDisplay = some b →
      getShowDisplay (some x) = b) ∧
    (∀ x : EthereumPublicKey, x.node = none → getNode (some x) = none) ∧
    (∀ x : EthereumPublicKey, x.xpub = none → getXpub (some x) = "") := by
  refine ⟨⟨rfl, rfl, rfl, rfl⟩, fun x => rfl, ?_, ?_, ?_, ?_⟩
  · intro x h
    simp [getShowDisplay, h]
  · intro x b h
    simp [getShowDisplay, h]
  · intro x h
    simp [getNode, h]
  · intro x h
    simp [getXpub, h]

/-- Closed witness for the nil-safe getters: a message whose optional
field pointer is nil yields false from `GetShowDisplay`. -/
theorem trezor_getters_witness :
    (({ addressN := [44, 60], showDisplay := none } : EthereumGetPublicKey).showDisplay
        = none) ∧
      getShowDisplay (some { addressN := [44, 60], showDisplay := none }) = false :=
  ⟨rfl, trezor_getters_nil_safe.2.2.1 { addressN := [44, 60], showDisplay := none } rfl⟩

end GoGori
